import Mathlib

/-!
Verification development for the go-occupy resource occupancy engine.

The definitions below are a shallow embedding of the Go sources:
`pkg/occupy/occupy.go` (the `occupy` package used by `main.go`) and the
legacy standalone implementation of the same tool kept in the repository
(an older `main.go` containing near-duplicate logic).  Percentages, which
are `float64` in Go, are modelled as rationals; byte counts (`uint64`) as
naturals; the allocated-memory slice `[][]byte` as the list of its chunk
lengths; the temp directory as a list of (file name, size) pairs; channels
and the tick loop as an explicit event list processed by a step function.
-/

namespace Occupy

/-- ResourceConfig from occupy.go: target percentages and tick interval
(interval modelled in nanoseconds; it never influences any decision). -/
structure ResourceConfig where
  memoryPercent : ℚ
  cpuPercent : ℚ
  diskPercent : ℚ
  interval : ℕ
deriving DecidableEq

/-- Conversion `uint64(x)` applied to a non-negative float expression in the
Go sources: truncation toward zero, i.e. the floor for the non-negative
values at which the code evaluates it. -/
def ratToUint (q : ℚ) : ℕ :=
  (⌊q⌋).toNat

/-! ### Memory occupant pool (occupy.go) -/

/-- Fixed allocation chunk size from allocateMemory: 100MB per chunk. -/
def memChunkSize : ℕ := 100 * 1024 * 1024

/-- Chunk sizes appended by the allocation loop of allocateMemory
(occupy.go lines 435-458): repeatedly take `min chunkSize remaining`
until the remaining request is exhausted. -/
def allocChunkSizes (bytes : ℕ) : List ℕ :=
  if bytes = 0 then []
  else min memChunkSize bytes :: allocChunkSizes (bytes - min memChunkSize bytes)
termination_by bytes
decreasing_by
  rename_i hb
  have h1 : 0 < bytes := Nat.pos_of_ne_zero hb
  have h2 : 0 < min memChunkSize bytes := lt_min (by norm_num [memChunkSize]) h1
  omega

theorem allocChunkSizes_eq (bytes : ℕ) :
    allocChunkSizes bytes =
      if bytes = 0 then []
      else min memChunkSize bytes :: allocChunkSizes (bytes - min memChunkSize bytes) := by
  rw [allocChunkSizes]

/-- allocateMemory (occupy.go): append the freshly allocated chunks to the
pool's `AllocatedMemory` sequence. -/
def allocateMemory (chunks : List ℕ) (bytes : ℕ) : List ℕ :=
  chunks ++ allocChunkSizes bytes

/-- getTotalAllocatedMemory (occupy.go): sum of the chunk sizes. -/
def chunkTotal (chunks : List ℕ) : ℕ :=
  chunks.sum

/-- The release loop of releaseMemory (occupy.go lines 263-274), expressed on
the reversed chunk list (most recently allocated chunk first).  `target` is
the amount still to release (`targetReleaseBytes - releasedBytes`).  A chunk
wholly below the target is dropped; otherwise the loop executes
`AllocatedMemory[i] = AllocatedMemory[i][:remainingBytes]`, i.e. the
straddling chunk is truncated TO the still-to-release count. -/
def releaseRev (target : ℕ) : List ℕ → List ℕ
  | [] => []
  | c :: rest =>
    if target = 0 then c :: rest
    else if c ≤ target then releaseRev (target - c) rest
    else target :: rest

/-- The release loop on the chunk list in allocation order. -/
def releaseChunks (target : ℕ) (chunks : List ℕ) : List ℕ :=
  (releaseRev target chunks.reverse).reverse

/-- releaseMemory (occupy.go lines 245-280): no-op on an empty pool;
otherwise compute the byte amount from the percentage excess, clamp it to
the currently held total, and run the release loop. -/
def releaseMemory (currentPercent targetPercent : ℚ) (memTotal : ℕ)
    (chunks : List ℕ) : List ℕ :=
  if chunks = [] then chunks
  else
    releaseChunks
      (min (ratToUint ((currentPercent - targetPercent) / 100 * memTotal))
        (chunkTotal chunks))
      chunks

/-- cleanupMemory (occupy.go): empty the chunk list (guarded by an
early return on an already-empty list). -/
def cleanupMemory (chunks : List ℕ) : List ℕ :=
  if chunks = [] then chunks else []

/-- adjustMemoryUsage (occupy.go lines 235-242): grow whenever the current
percent is below target, release when it exceeds target + 5. -/
def adjustMemoryUsage (currentPercent targetPercent : ℚ) (memTotal : ℕ)
    (chunks : List ℕ) : List ℕ :=
  if currentPercent < targetPercent then
    allocateMemory chunks (ratToUint ((targetPercent - currentPercent) / 100 * memTotal))
  else if currentPercent > targetPercent + 5 then
    releaseMemory currentPercent targetPercent memTotal chunks
  else chunks

/-! ### Legacy memory release policy (old standalone main.go) -/

/-- Release fraction chosen by the legacy releaseMemory from the excess over
the target: 30% for an excess of at most 5 points, 50% for at most 10,
otherwise 70%. -/
def releaseFraction (excessPercent : ℚ) : ℚ :=
  if excessPercent ≤ 5 then 3 / 10
  else if excessPercent ≤ 10 then 5 / 10
  else 7 / 10

/-- blocksToRelease from the legacy releaseMemory:
`int(float64(len) * ratio)` raised to at least 1. -/
def blocksToRelease (n : ℕ) (ratio : ℚ) : ℕ :=
  if (⌊(n : ℚ) * ratio⌋).toNat < 1 then 1 else (⌊(n : ℚ) * ratio⌋).toNat

/-- The legacy release loop pops the last chunk `k` times (stopping early on
an empty list), i.e. keeps the first `length - k` chunks. -/
def dropLastN (k : ℕ) (l : List ℕ) : List ℕ :=
  l.take (l.length - k)

/-- releaseMemory of the legacy standalone main.go: pick the release
fraction from the excess, convert it to a block count (at least 1), and
drop that many most-recently-allocated chunks. -/
def legacyReleaseMemory (currentPercent targetPercent : ℚ)
    (chunks : List ℕ) : List ℕ :=
  if chunks = [] then chunks
  else
    dropLastN
      (blocksToRelease chunks.length (releaseFraction (currentPercent - targetPercent)))
      chunks

/-! ### CPU spinner pool (occupy.go) -/

/-- The CPU-load fields of ResourceMonitor that the worker-pool logic
mutates (the channel and wait-group plumbing is elided; worker goroutines
are represented by the `currentCPUWorkers` count they realise). -/
structure CPUState where
  activeCPULoad : Bool
  targetCPUWorkers : ℕ
  currentCPUWorkers : ℕ
deriving DecidableEq

/-- Worker count computed by adjustCPUUsage on the grow path:
`int(cfg.CPUPercent / 100 * NumCPU)` clamped below by 1 and above by
NumCPU (in that order). -/
def numWorkersFor (targetPercent : ℚ) (numCPU : ℕ) : ℕ :=
  min (max (ratToUint (targetPercent / 100 * numCPU)) 1) numCPU

/-- startCPULoadInternal (occupy.go): no-op while active; otherwise marks
the pool active with `targetCPUWorkers` running workers. -/
def startCPULoadInternal (s : CPUState) : CPUState :=
  if s.activeCPULoad then s
  else { s with activeCPULoad := true, currentCPUWorkers := s.targetCPUWorkers }

/-- stopCPULoadInternal (occupy.go): no-op while inactive; otherwise marks
the pool inactive with zero running workers (the bounded 3s wait for worker
exit has no effect on these fields). -/
def stopCPULoadInternal (s : CPUState) : CPUState :=
  if !s.activeCPULoad then s
  else { s with activeCPULoad := false, currentCPUWorkers := 0 }

/-- adjustCPUWorkers (occupy.go lines 310-338). -/
def adjustCPUWorkers (targetWorkers : ℕ) (s : CPUState) : CPUState :=
  if s.targetCPUWorkers = targetWorkers then s
  else
    let s1 := { s with targetCPUWorkers := targetWorkers }
    if targetWorkers = 0 then
      if s1.activeCPULoad then stopCPULoadInternal s1 else s1
    else
      if !s1.activeCPULoad then startCPULoadInternal s1
      else if s1.currentCPUWorkers ≠ targetWorkers then
        startCPULoadInternal (stopCPULoadInternal s1)
      else s1

/-- adjustCPUUsage (occupy.go lines 283-307) with tolerance 5. -/
def adjustCPUUsage (currentPercent targetPercent : ℚ) (numCPU : ℕ)
    (s : CPUState) : CPUState :=
  if currentPercent < targetPercent - 5 then
    adjustCPUWorkers (numWorkersFor targetPercent numCPU) s
  else if currentPercent > targetPercent + 5 then
    adjustCPUWorkers 0 s
  else s

/-- stopCPULoad (occupy.go): stop the workers if the pool is active. -/
def stopCPULoad (s : CPUState) : CPUState :=
  if s.activeCPULoad then stopCPULoadInternal s else s

/-! ### Disk padding manager (occupy.go) -/

/-- Per-file size cap from createTempFiles: 5GB per file. -/
def fileSizeCap : ℕ := 5 * 1024 * 1024 * 1024

/-- File name written by createTempFiles:
`go_occupy_temp_<unix timestamp>_<index>.dat`. -/
def tempFileName (ts idx : ℕ) : String :=
  "go_occupy_temp_" ++ toString ts ++ "_" ++ toString idx ++ ".dat"

/-- The glob pattern `go_occupy_temp_*.dat` used by cleanupTempFiles and
cleanupAllTempFiles to recognise engine-owned padding files. -/
def isEngineFile (name : String) : Bool :=
  name.startsWith "go_occupy_temp_" && name.endsWith ".dat"

/-- File sizes produced by the creation loop of createTempFiles
(occupy.go lines 479-511): repeatedly take `min fileSize remaining` until
the remaining request is exhausted. -/
def createTempFileSizes (targetBytes : ℕ) : List ℕ :=
  if targetBytes = 0 then []
  else min fileSizeCap targetBytes ::
    createTempFileSizes (targetBytes - min fileSizeCap targetBytes)
termination_by targetBytes
decreasing_by
  rename_i hb
  have h1 : 0 < targetBytes := Nat.pos_of_ne_zero hb
  have h2 : 0 < min fileSizeCap targetBytes := lt_min (by norm_num [fileSizeCap]) h1
  omega

theorem createTempFileSizes_eq (targetBytes : ℕ) :
    createTempFileSizes targetBytes =
      if targetBytes = 0 then []
      else min fileSizeCap targetBytes ::
        createTempFileSizes (targetBytes - min fileSizeCap targetBytes) := by
  rw [createTempFileSizes]

/-- createTempFiles (occupy.go lines 461-512): write the split files into
the working directory under timestamp-and-index names (error-free path). -/
def createTempFiles (ts targetBytes : ℕ)
    (files : List (String × ℕ)) : List (String × ℕ) :=
  files ++ (createTempFileSizes targetBytes).enum.map
    (fun p => (tempFileName ts p.1, p.2))

/-- cleanupTempFiles (occupy.go): delete every file in the working
directory matching the engine's naming pattern. -/
def cleanupTempFiles (files : List (String × ℕ)) : List (String × ℕ) :=
  files.filter (fun f => !(isEngineFile f.1))

/-- cleanupAllTempFiles (occupy.go): same glob-and-delete as
cleanupTempFiles (the source duplicates the body without the disk lock). -/
def cleanupAllTempFiles (files : List (String × ℕ)) : List (String × ℕ) :=
  files.filter (fun f => !(isEngineFile f.1))

/-- adjustDiskUsage (occupy.go lines 425-432): create padding files while
below target, delete them when above target + 5. -/
def adjustDiskUsage (currentPercent targetPercent : ℚ) (diskTotal ts : ℕ)
    (files : List (String × ℕ)) : List (String × ℕ) :=
  if currentPercent < targetPercent then
    createTempFiles ts
      (ratToUint ((targetPercent - currentPercent) / 100 * diskTotal)) files
  else if currentPercent > targetPercent + 5 then
    cleanupTempFiles files
  else files

/-! ### Adjustment decisions (the guard structure of the three
adjust functions, i.e. the spec's Adjustment Engine) -/

/-- Per-resource adjustment decision. -/
inductive Decision where
  | grow (amount : ℕ)
  | shrink
  | noop
deriving DecidableEq

/-- Decision structure of adjustMemoryUsage. -/
def decideMemory (currentPercent targetPercent : ℚ) (memTotal : ℕ) : Decision :=
  if currentPercent < targetPercent then
    .grow (ratToUint ((targetPercent - currentPercent) / 100 * memTotal))
  else if currentPercent > targetPercent + 5 then .shrink
  else .noop

/-- Decision structure of adjustDiskUsage. -/
def decideDisk (currentPercent targetPercent : ℚ) (diskTotal : ℕ) : Decision :=
  if currentPercent < targetPercent then
    .grow (ratToUint ((targetPercent - currentPercent) / 100 * diskTotal))
  else if currentPercent > targetPercent + 5 then .shrink
  else .noop

/-- Decision structure of adjustCPUUsage (grow carries the clamped worker
count; shrink is the `targetWorkers = 0` branch). -/
def decideCPU (currentPercent targetPercent : ℚ) (numCPU : ℕ) : Decision :=
  if currentPercent < targetPercent - 5 then
    .grow (numWorkersFor targetPercent numCPU)
  else if currentPercent > targetPercent + 5 then .shrink
  else .noop

theorem adjustMemoryUsage_decide (currentPercent targetPercent : ℚ)
    (memTotal : ℕ) (chunks : List ℕ) :
    adjustMemoryUsage currentPercent targetPercent memTotal chunks =
      match decideMemory currentPercent targetPercent memTotal with
      | .grow b => allocateMemory chunks b
      | .shrink => releaseMemory currentPercent targetPercent memTotal chunks
      | .noop => chunks := by
  unfold adjustMemoryUsage decideMemory
  split_ifs <;> rfl

theorem adjustDiskUsage_decide (currentPercent targetPercent : ℚ)
    (diskTotal ts : ℕ) (files : List (String × ℕ)) :
    adjustDiskUsage currentPercent targetPercent diskTotal ts files =
      match decideDisk currentPercent targetPercent diskTotal with
      | .grow b => createTempFiles ts b files
      | .shrink => cleanupTempFiles files
      | .noop => files := by
  unfold adjustDiskUsage decideDisk
  split_ifs <;> rfl

theorem adjustCPUUsage_decide (currentPercent targetPercent : ℚ)
    (numCPU : ℕ) (s : CPUState) :
    adjustCPUUsage currentPercent targetPercent numCPU s =
      match decideCPU currentPercent targetPercent numCPU with
      | .grow w => adjustCPUWorkers w s
      | .shrink => adjustCPUWorkers 0 s
      | .noop => s := by
  unfold adjustCPUUsage decideCPU
  split_ifs <;> rfl

/-! ### Occupancy controller (Start / monitorAndAdjust / Stop) -/

/-- Mutable engine state relevant to the run loop: the three pools plus the
`cleanupDone` channel (modelled as a closed-or-not flag). -/
structure EngineState where
  cpu : CPUState
  chunks : List ℕ
  files : List (String × ℕ)
  cleanupDone : Bool
deriving DecidableEq

/-- Inputs consumed by one execution of monitorAndAdjust: the results of
the four sampling calls (`none` models a sampling error) and the timestamp
used for padding-file names. -/
structure TickInput where
  memSample : Option (ℚ × ℕ)
  cpuSample : Option ℚ
  diskSample : Option (ℚ × ℕ)
  memResample : Option (ℚ × ℕ)
  ts : ℕ
deriving DecidableEq

/-- Which adjust function an execution of monitorAndAdjust invoked. -/
inductive AdjustKind where
  | disk
  | mem
  | cpu
deriving DecidableEq

/-- monitorAndAdjust (occupy.go lines 145-232): abort on a closed stop
channel or on any failed sampling call, otherwise apply the disk
adjustment, re-sample memory, then apply the memory and CPU adjustments.
The returned list records the adjust invocations in order. -/
def monitorAndAdjust (cfg : ResourceConfig) (numCPU : ℕ) (stopClosed : Bool)
    (inp : TickInput) (st : EngineState) : EngineState × List AdjustKind :=
  if stopClosed then (st, [])
  else
    match inp.memSample with
    | none => (st, [])
    | some _ =>
      match inp.cpuSample with
      | none => (st, [])
      | some cpuPct =>
        match inp.diskSample with
        | none => (st, [])
        | some (diskPct, diskTotal) =>
          let st1 := { st with
            files := adjustDiskUsage diskPct cfg.diskPercent diskTotal inp.ts st.files }
          match inp.memResample with
          | none => (st1, [AdjustKind.disk])
          | some (memPct2, memTotal2) =>
            let st2 := { st1 with
              chunks := adjustMemoryUsage memPct2 cfg.memoryPercent memTotal2 st1.chunks }
            let st3 := { st2 with
              cpu := adjustCPUUsage cpuPct cfg.cpuPercent numCPU st2.cpu }
            (st3, [AdjustKind.disk, AdjustKind.mem, AdjustKind.cpu])

/-- cleanupAllResources (occupy.go lines 599-619): stop the CPU load, then
empty the memory pool, then delete the engine's padding files. -/
def cleanupAllResources (st : EngineState) : EngineState :=
  let s1 := { st with cpu := stopCPULoad st.cpu }
  let s2 := { s1 with chunks := cleanupMemory s1.chunks }
  { s2 with files := cleanupAllTempFiles s2.files }

/-- One event observed by the select of Start: a timer tick (with the
sampling results of that tick) or the stop channel becoming readable. -/
inductive Event where
  | tick (inp : TickInput)
  | stop

/-- The run loop of Start (occupy.go lines 58-77): on a tick, execute
monitorAndAdjust; on stop, run cleanupAllResources, close cleanupDone and
return (all later events are ignored). -/
def runLoop (cfg : ResourceConfig) (numCPU : ℕ) :
    List Event → EngineState → EngineState
  | [], st => st
  | Event.stop :: _, st =>
      { cleanupAllResources st with cleanupDone := true }
  | Event.tick inp :: rest, st =>
      runLoop cfg numCPU rest (monitorAndAdjust cfg numCPU false inp st).1

/-- Program position of one caller inside Stop (occupy.go lines 80-95):
about to run the select on the stop channel, past the select's default
branch (committed to `close(rm.stop)`), or returned. -/
inductive StopPhase where
  | beforeSelect
  | beforeClose
  | returned
deriving DecidableEq

/-- Two Stop callers racing on the unsynchronized stop channel: the
channel's closed flag, how many closes executed (each close is what lets
the run loop enter its cleanup branch), whether a close of an
already-closed channel occurred (a Go runtime panic), and each caller's
program position. -/
structure StopRace where
  stopClosed : Bool
  closes : ℕ
  panicked : Bool
  t1 : StopPhase
  t2 : StopPhase
deriving DecidableEq

/-- Advance one caller (t1 if `first`) by one atomic step of Stop's
check-then-close.  The select observes the channel: if closed the call
returns, otherwise it falls through to the default branch.  The close
marks the channel closed — unless it is already closed, in which case the
Go runtime panics with "close of closed channel".  Nothing in the source
synchronizes the two steps. -/
def stopStep (first : Bool) (s : StopRace) : StopRace :=
  match (if first then s.t1 else s.t2) with
  | .returned => s
  | .beforeSelect =>
      if s.stopClosed then
        if first then { s with t1 := .returned } else { s with t2 := .returned }
      else
        if first then { s with t1 := .beforeClose } else { s with t2 := .beforeClose }
  | .beforeClose =>
      if s.stopClosed then
        if first then { s with t1 := .returned, panicked := true }
        else { s with t2 := .returned, panicked := true }
      else
        if first then
          { s with t1 := .returned, stopClosed := true, closes := s.closes + 1 }
        else
          { s with t2 := .returned, stopClosed := true, closes := s.closes + 1 }

/-- Run the two racing Stop callers under an explicit schedule (the list
says which caller takes the next atomic step). -/
def runStops (sched : List Bool) (s : StopRace) : StopRace :=
  match sched with
  | [] => s
  | b :: rest => runStops rest (stopStep b s)

/-- Both callers at the top of Stop, channel open, no close yet. -/
def stopRaceInit : StopRace := ⟨false, 0, false, .beforeSelect, .beforeSelect⟩

/-! ### Concrete fixtures used by counterexamples and witnesses -/

/-- The tool's default configuration (memory 50%, CPU 30%, disk 40%). -/
def cfg0 : ResourceConfig := ⟨50, 30, 40, 5⟩

/-- A freshly constructed engine: CPU pool idle, no chunks, empty working
directory, cleanupDone channel open. -/
def st0 : EngineState := ⟨⟨false, 0, 0⟩, [], [], false⟩

/-- A tick whose four samples all succeed and all land inside the upper
hysteresis band of cfg0 (so all three adjustments are no-ops). -/
def inp0 : TickInput := ⟨some (52, 1000), some 32, some (42, 1000), some (52, 1000), 1⟩

/-- A tick whose first sampling call (memory) fails. -/
def inpBad : TickInput := ⟨none, some 32, some (42, 1000), some (52, 1000), 1⟩

/-! ### Helper lemmas -/

theorem ratToUint_natCast (n : ℕ) : ratToUint (n : ℚ) = n := by
  unfold ratToUint
  rw [Int.floor_natCast]
  exact Int.toNat_natCast n

theorem ratToUint_pos {q : ℚ} (h : 1 ≤ q) : 0 < ratToUint q := by
  unfold ratToUint
  have h1 : (1 : ℤ) ≤ ⌊q⌋ := Int.le_floor.mpr (by exact_mod_cast h)
  omega

/-- Characterisation of the two greedy chunking loops (allocateMemory and
createTempFiles share this shape): the produced sizes sum to the request. -/
theorem greedy_sum (cap : ℕ) (hcap : 0 < cap) (f : ℕ → List ℕ)
    (hf : ∀ b, f b = if b = 0 then [] else min cap b :: f (b - min cap b)) :
    ∀ b, (f b).sum = b := by
  intro b
  induction b using Nat.strong_induction_on with
  | _ b ih =>
    rw [hf b]
    by_cases hb : b = 0
    · simp [hb]
    · simp only [hb, if_false, List.sum_cons]
      have hmin : 0 < min cap b := lt_min hcap (Nat.pos_of_ne_zero hb)
      have hle : min cap b ≤ b := Nat.min_le_right cap b
      rw [ih _ (by omega)]
      omega

/-- Every size produced by a greedy chunking loop with positive cap is
positive and at most the cap. -/
theorem greedy_mem (cap : ℕ) (hcap : 0 < cap) (f : ℕ → List ℕ)
    (hf : ∀ b, f b = if b = 0 then [] else min cap b :: f (b - min cap b)) :
    ∀ b, ∀ s ∈ f b, 0 < s ∧ s ≤ cap := by
  intro b
  induction b using Nat.strong_induction_on with
  | _ b ih =>
    intro s hs
    rw [hf b] at hs
    by_cases hb : b = 0
    · simp [hb] at hs
    · simp only [hb, if_false, List.mem_cons] at hs
      rcases hs with hs | hs
      · subst hs
        exact ⟨lt_min hcap (Nat.pos_of_ne_zero hb), Nat.min_le_left cap b⟩
      · have hmin : 0 < min cap b := lt_min hcap (Nat.pos_of_ne_zero hb)
        have hle : min cap b ≤ b := Nat.min_le_right cap b
        exact ih (b - min cap b) (by omega) s hs

/-- A greedy chunking loop yields the empty list exactly on a zero
request. -/
theorem greedy_nil_iff (cap : ℕ) (f : ℕ → List ℕ)
    (hf : ∀ b, f b = if b = 0 then [] else min cap b :: f (b - min cap b)) :
    ∀ b, f b = [] ↔ b = 0 := by
  intro b
  constructor
  · intro h
    by_contra hb
    rw [hf b] at h
    simp [hb] at h
  · intro h
    subst h
    rw [hf 0]
    simp

/-- Every size but the last produced by a greedy chunking loop with positive
cap equals the cap. -/
theorem greedy_dropLast (cap : ℕ) (hcap : 0 < cap) (f : ℕ → List ℕ)
    (hf : ∀ b, f b = if b = 0 then [] else min cap b :: f (b - min cap b)) :
    ∀ b, ∀ s ∈ (f b).dropLast, s = cap := by
  intro b
  induction b using Nat.strong_induction_on with
  | _ b ih =>
    intro s hs
    by_cases hb : b = 0
    · rw [hf b] at hs
      simp [hb] at hs
    · rw [hf b] at hs
      simp only [hb, if_false] at hs
      by_cases hrest : f (b - min cap b) = []
      · rw [hrest] at hs
        simp at hs
      · obtain ⟨c, l, hcl⟩ : ∃ c l, f (b - min cap b) = c :: l := by
          cases hcase : f (b - min cap b) with
          | nil => exact absurd hcase hrest
          | cons c l => exact ⟨c, l, rfl⟩
        rw [hcl] at hs
        rw [List.dropLast_cons₂] at hs
        rcases List.mem_cons.mp hs with hs | hs
        · -- the head chunk is followed by more chunks, so the remaining
          -- request was nonzero and the head was a full cap-sized chunk
          have hne : b - min cap b ≠ 0 := by
            intro h0
            rw [h0] at hcl
            rw [(greedy_nil_iff cap f hf 0).mpr rfl] at hcl
            exact List.noConfusion hcl
          have hlt : min cap b < b := by
            have := Nat.min_le_right cap b
            omega
          have hmincap : min cap b = cap := by
            rcases Nat.le_total cap b with hcb | hcb
            · exact Nat.min_eq_left hcb
            · rw [Nat.min_eq_right hcb] at hlt
              omega
          rw [hs, hmincap]
        · rw [← hcl] at hs
          have hmin : 0 < min cap b := lt_min hcap (Nat.pos_of_ne_zero hb)
          have hle : min cap b ≤ b := Nat.min_le_right cap b
          exact ih (b - min cap b) (by omega) s hs

/-- Releasing the exact total of an all-positive chunk list empties it. -/
theorem releaseRev_sum (l : List ℕ) (hpos : ∀ x ∈ l, 0 < x) :
    releaseRev l.sum l = [] := by
  induction l with
  | nil => rfl
  | cons c rest ih =>
    have hc : 0 < c := hpos c (List.mem_cons_self c rest)
    unfold releaseRev
    have hne : c + rest.sum ≠ 0 := by omega
    simp only [List.sum_cons, hne, if_false]
    have hle : c ≤ c + rest.sum := Nat.le_add_right c rest.sum
    simp only [hle, if_true]
    have hsub : c + rest.sum - c = rest.sum := by omega
    rw [hsub]
    exact ih (fun x hx => hpos x (List.mem_cons_of_mem c hx))

theorem releaseChunks_total (chunks : List ℕ) (hpos : ∀ x ∈ chunks, 0 < x) :
    releaseChunks (chunkTotal chunks) chunks = [] := by
  unfold releaseChunks chunkTotal
  have hsum : chunks.sum = chunks.reverse.sum := (List.sum_reverse chunks).symm
  rw [hsum, releaseRev_sum chunks.reverse
    (fun x hx => hpos x (List.mem_reverse.mp hx))]
  rfl

/-- Sums of prefixes of a natural-number list are monotone in the prefix
length. -/
theorem sum_take_mono (l : List ℕ) {a b : ℕ} (h : a ≤ b) :
    (l.take a).sum ≤ (l.take b).sum := by
  have h1 : l.take a = (l.take b).take a := by
    rw [List.take_take, Nat.min_eq_left h]
  rw [h1]
  exact List.Sublist.sum_le_sum (List.take_sublist a (l.take b)) (fun x _ => Nat.zero_le x)

theorem releaseFraction_mono {e1 e2 : ℚ} (h : e1 ≤ e2) :
    releaseFraction e1 ≤ releaseFraction e2 := by
  unfold releaseFraction
  split_ifs <;> linarith

theorem blocksToRelease_mono (n : ℕ) {r1 r2 : ℚ} (h : r1 ≤ r2) :
    blocksToRelease n r1 ≤ blocksToRelease n r2 := by
  unfold blocksToRelease
  have hfloor : ⌊(n : ℚ) * r1⌋ ≤ ⌊(n : ℚ) * r2⌋ :=
    Int.floor_le_floor (mul_le_mul_of_nonneg_left h (by positivity))
  have htn : (⌊(n : ℚ) * r1⌋).toNat ≤ (⌊(n : ℚ) * r2⌋).toNat := Int.toNat_le_toNat hfloor
  split_ifs <;> omega

theorem releaseFraction_bounds (e : ℚ) :
    0 ≤ releaseFraction e ∧ releaseFraction e < 1 := by
  unfold releaseFraction
  split_ifs <;> norm_num

/-- On a one-block pool the legacy policy's at-least-one-block floor always
releases the single block. -/
theorem blocksToRelease_one {r : ℚ} (h0 : 0 ≤ r) (h1 : r < 1) :
    blocksToRelease 1 r = 1 := by
  unfold blocksToRelease
  have hfloor : ⌊((1 : ℕ) : ℚ) * r⌋ = 0 := by
    rw [show ((1 : ℕ) : ℚ) * r = r by push_cast; ring]
    rw [Int.floor_eq_zero_iff, Set.mem_Ico]
    exact ⟨h0, h1⟩
  rw [hfloor]
  norm_num

theorem numWorkersFor_bounds (targetPercent : ℚ) (numCPU : ℕ) (h : 1 ≤ numCPU) :
    1 ≤ numWorkersFor targetPercent numCPU ∧ numWorkersFor targetPercent numCPU ≤ numCPU := by
  unfold numWorkersFor
  exact ⟨le_min (le_max_right _ 1) h, min_le_right _ _⟩

theorem filter_all_holds (l : List (String × ℕ)) (p : String × ℕ → Bool) :
    (l.filter p).all p = true := by
  rw [List.all_eq_true]
  intro a ha
  exact (List.mem_filter.mp ha).2

theorem cleanupMemory_nil (chunks : List ℕ) : cleanupMemory chunks = [] := by
  unfold cleanupMemory
  split_ifs with h
  · exact h
  · rfl

/-- Concrete evaluation: the 12GB grow request splits into 5GB, 5GB, 2GB. -/
theorem createTempFileSizes_12GB :
    createTempFileSizes (12 * 1024 * 1024 * 1024) =
      [fileSizeCap, fileSizeCap, 2 * 1024 * 1024 * 1024] := by
  rw [createTempFileSizes_eq]
  norm_num [fileSizeCap]
  rw [createTempFileSizes_eq]
  norm_num [fileSizeCap]
  rw [createTempFileSizes_eq]
  norm_num [fileSizeCap]
  rw [createTempFileSizes_eq]
  norm_num

/-- Concrete evaluation: a request of one full chunk plus 5 bytes yields a
full 100MB chunk followed by a 5-byte chunk. -/
theorem allocChunkSizes_chunkPlus5 :
    allocChunkSizes (memChunkSize + 5) = [memChunkSize, 5] := by
  rw [allocChunkSizes_eq]
  norm_num [memChunkSize]
  rw [allocChunkSizes_eq]
  norm_num [memChunkSize]
  rw [allocChunkSizes_eq]
  norm_num

theorem stopCPULoad_inactive (s : CPUState) : (stopCPULoad s).activeCPULoad = false := by
  unfold stopCPULoad stopCPULoadInternal
  by_cases h : s.activeCPULoad <;> simp [h]

/-! ### Claim theorems -/

/-- C1: on the stop signal the run loop exits (all later events are
ignored, so cleanup runs exactly once), cleanup covers all three resources
— the CPU spinner pool is stopped, the memory chunk list becomes empty,
and every engine-owned padding file is deleted — and the cleanup-complete
signal is raised only after all three cleanups have run (the resulting
state is exactly cleanupAllResources followed by closing cleanupDone). -/
theorem C1_stop_runs_full_cleanup_once (cfg : ResourceConfig) (numCPU : ℕ)
    (rest : List Event) (st : EngineState) :
    runLoop cfg numCPU (Event.stop :: rest) st
      = { cleanupAllResources st with cleanupDone := true } ∧
    runLoop cfg numCPU (Event.stop :: rest) st = runLoop cfg numCPU [Event.stop] st ∧
    (runLoop cfg numCPU (Event.stop :: rest) st).cpu.activeCPULoad = false ∧
    (runLoop cfg numCPU (Event.stop :: rest) st).chunks = [] ∧
    (runLoop cfg numCPU (Event.stop :: rest) st).files.all
      (fun f => !(isEngineFile f.1)) = true ∧
    (runLoop cfg numCPU (Event.stop :: rest) st).cleanupDone = true := by
  refine ⟨rfl, rfl, ?_, ?_, ?_, rfl⟩
  · show (stopCPULoad st.cpu).activeCPULoad = false
    exact stopCPULoad_inactive st.cpu
  · show cleanupMemory st.chunks = []
    exact cleanupMemory_nil st.chunks
  · show (cleanupAllTempFiles st.files).all (fun f => !(isEngineFile f.1)) = true
    exact filter_all_holds st.files _

/-- C3: the claim fails on the code in exactly the concurrent case it
names.  Stop's check-then-close is unsynchronized: under the schedule
select1, select2, close1, close2 both callers find the channel open and
both reach close, so the second close hits an already-closed channel and
the Go runtime panics — the second concurrent call does not return
without error.  A strictly later second call does behave as claimed: the
sequential schedule closes the channel exactly once (one cleanup
trigger), the second caller observes the closed channel in its select and
returns, and the single close sends the run loop through its one cleanup
pass. -/
theorem C3_concurrent_stop_panics :
    (runStops [true, false, true, false] stopRaceInit).panicked = true ∧
    (runStops [true, false, true, false] stopRaceInit).closes = 1 ∧
    runStops [true, true, false, false] stopRaceInit
      = { stopClosed := true, closes := 1, panicked := false,
          t1 := .returned, t2 := .returned } ∧
    runLoop cfg0 4 [Event.stop] st0
      = { cleanupAllResources st0 with cleanupDone := true } := by
  refine ⟨rfl, rfl, rfl, rfl⟩

/-- C9: if any of the three sampling calls of a tick fails, that tick
applies no adjustment at all, and the run loop simply continues with the
next event — errors never escape the loop (monitorAndAdjust and runLoop
are total and return no error value, mirroring the void Start). -/
theorem C9_sampling_error_skips_tick (cfg : ResourceConfig) (numCPU : ℕ)
    (inp : TickInput) (st : EngineState) (rest : List Event)
    (h : inp.memSample = none ∨ inp.cpuSample = none ∨ inp.diskSample = none) :
    monitorAndAdjust cfg numCPU false inp st = (st, []) ∧
    runLoop cfg numCPU (Event.tick inp :: rest) st = runLoop cfg numCPU rest st := by
  have hmain : monitorAndAdjust cfg numCPU false inp st = (st, []) := by
    rcases h with h | h | h
    · simp [monitorAndAdjust, h]
    · cases hm : inp.memSample <;> simp [monitorAndAdjust, hm, h]
    · cases hm : inp.memSample <;> cases hc : inp.cpuSample <;>
        simp [monitorAndAdjust, hm, hc, h]
  refine ⟨hmain, ?_⟩
  show runLoop cfg numCPU rest (monitorAndAdjust cfg numCPU false inp st).1
    = runLoop cfg numCPU rest st
  rw [hmain]

theorem C9_sampling_error_skips_tick_witness :
    monitorAndAdjust cfg0 4 false inpBad st0 = (st0, []) ∧
    runLoop cfg0 4 [Event.tick inpBad] st0 = runLoop cfg0 4 [] st0 :=
  C9_sampling_error_skips_tick cfg0 4 inpBad st0 [] (Or.inl rfl)

/-- C6: disk grow splits the requested bytes into files capped at 5GB
(every file but the last is exactly the cap, all are positive and at most
the cap), the file sizes sum to exactly the requested amount, and a 12GB
request produces exactly the three files 5GB, 5GB, 2GB. -/
theorem C6_disk_split_capped (B B2 s B3 s2 : ℕ)
    (hd : s ∈ (createTempFileSizes B2).dropLast)
    (hm : s2 ∈ createTempFileSizes B3) :
    (createTempFileSizes B).sum = B ∧
    s = fileSizeCap ∧
    (0 < s2 ∧ s2 ≤ fileSizeCap) ∧
    createTempFileSizes (12 * 1024 * 1024 * 1024)
      = [fileSizeCap, fileSizeCap, 2 * 1024 * 1024 * 1024] := by
  refine ⟨?_, ?_, ?_, createTempFileSizes_12GB⟩
  · exact greedy_sum fileSizeCap (by norm_num [fileSizeCap]) createTempFileSizes
      createTempFileSizes_eq B
  · exact greedy_dropLast fileSizeCap (by norm_num [fileSizeCap]) createTempFileSizes
      createTempFileSizes_eq B2 s hd
  · exact greedy_mem fileSizeCap (by norm_num [fileSizeCap]) createTempFileSizes
      createTempFileSizes_eq B3 s2 hm

theorem C6_disk_split_capped_witness :
    (createTempFileSizes 7).sum = 7 ∧
    fileSizeCap = fileSizeCap ∧
    (0 < 2 * 1024 * 1024 * 1024 ∧ 2 * 1024 * 1024 * 1024 ≤ fileSizeCap) ∧
    createTempFileSizes (12 * 1024 * 1024 * 1024)
      = [fileSizeCap, fileSizeCap, 2 * 1024 * 1024 * 1024] :=
  C6_disk_split_capped 7 (12 * 1024 * 1024 * 1024) fileSizeCap
    (12 * 1024 * 1024 * 1024) (2 * 1024 * 1024 * 1024)
    (by rw [createTempFileSizes_12GB]; simp)
    (by rw [createTempFileSizes_12GB]; simp)

/-- C8: memory grow appends chunks of exactly 100MB except that the final
chunk may be smaller (all chunks are positive and at most 100MB), the
appended sizes sum to exactly the requested bytes so the total increases
by exactly that amount, and a request of 0 bytes appends nothing. -/
theorem C8_memory_grow_chunked (chunks : List ℕ) (B B2 s B3 s2 : ℕ)
    (hd : s ∈ (allocChunkSizes B2).dropLast)
    (hm : s2 ∈ allocChunkSizes B3) :
    chunkTotal (allocateMemory chunks B) = chunkTotal chunks + B ∧
    s = memChunkSize ∧
    (0 < s2 ∧ s2 ≤ memChunkSize) ∧
    allocateMemory chunks 0 = chunks := by
  refine ⟨?_, ?_, ?_, ?_⟩
  · unfold allocateMemory chunkTotal
    rw [List.sum_append,
      greedy_sum memChunkSize (by norm_num [memChunkSize]) allocChunkSizes
        allocChunkSizes_eq B]
  · exact greedy_dropLast memChunkSize (by norm_num [memChunkSize]) allocChunkSizes
      allocChunkSizes_eq B2 s hd
  · exact greedy_mem memChunkSize (by norm_num [memChunkSize]) allocChunkSizes
      allocChunkSizes_eq B3 s2 hm
  · unfold allocateMemory
    rw [(greedy_nil_iff memChunkSize allocChunkSizes allocChunkSizes_eq 0).mpr rfl]
    exact List.append_nil chunks

theorem C8_memory_grow_chunked_witness :
    chunkTotal (allocateMemory [3] 7) = chunkTotal [3] + 7 ∧
    memChunkSize = memChunkSize ∧
    (0 < 5 ∧ 5 ≤ memChunkSize) ∧
    allocateMemory [3] 0 = [3] :=
  C8_memory_grow_chunked [3] 7 (memChunkSize + 5) memChunkSize (memChunkSize + 5) 5
    (by rw [allocChunkSizes_chunkPlus5]; simp)
    (by rw [allocChunkSizes_chunkPlus5]; simp)

/-- C4: the claim fails on the code.  releaseMemory's partial-release
branch truncates the straddling chunk TO the still-to-release byte count
(`AllocatedMemory[i] = AllocatedMemory[i][:remainingBytes]`), releasing
`chunk - remaining` bytes instead of `remaining`: with one 100-byte chunk
and a release target of 30 bytes (excess 3 points of a 1000-byte total)
the pool is left with 30 bytes, not the 70 the claim requires, even though
the function's own `releasedBytes` counter reports 30. -/
theorem C4_partial_release_bug :
    releaseMemory 53 50 1000 [100] = [30] ∧
    chunkTotal (releaseMemory 53 50 1000 [100]) = 30 ∧
    chunkTotal [100] - 30 = 70 ∧
    (30 : ℕ) ≠ 70 := by
  have hq : ((53 : ℚ) - 50) / 100 * ((1000 : ℕ) : ℚ) = ((30 : ℕ) : ℚ) := by
    push_cast
    norm_num
  have hr : ratToUint (((53 : ℚ) - 50) / 100 * ((1000 : ℕ) : ℚ)) = 30 := by
    rw [hq, ratToUint_natCast]
  have hmain : releaseMemory 53 50 1000 [100] = [30] := by
    unfold releaseMemory
    rw [if_neg (by simp)]
    rw [hr]
    norm_num [chunkTotal, releaseChunks, releaseRev]
  refine ⟨hmain, ?_, by norm_num [chunkTotal], by norm_num⟩
  rw [hmain]
  norm_num [chunkTotal]

/-- C10: memory release never frees more than is held — the computed
release amount is clamped to the current chunk total, a release request
at or above the held total empties the chunk list exactly (for the
positive-size chunks the allocator produces), and releasing from an empty
pool is a no-op. -/
theorem C10_release_clamped (ca ta : ℚ) (ma : ℕ)
    (cb tb : ℚ) (mb : ℕ) (chunksB : List ℕ)
    (hpos : ∀ x ∈ chunksB, 0 < x)
    (hover : chunkTotal chunksB ≤ ratToUint ((cb - tb) / 100 * mb))
    (cc tcv : ℚ) (mc : ℕ) (chunksC : List ℕ) (hne : chunksC ≠ []) :
    releaseMemory ca ta ma [] = [] ∧
    releaseMemory cb tb mb chunksB = [] ∧
    releaseMemory cc tcv mc chunksC
      = releaseChunks (min (ratToUint ((cc - tcv) / 100 * mc)) (chunkTotal chunksC))
          chunksC := by
  refine ⟨by unfold releaseMemory; simp, ?_, by unfold releaseMemory; rw [if_neg hne]⟩
  by_cases hB : chunksB = []
  · subst hB
    unfold releaseMemory
    simp
  · unfold releaseMemory
    rw [if_neg hB, Nat.min_eq_right hover, releaseChunks_total chunksB hpos]

theorem C10_release_clamped_witness :
    releaseMemory 80 50 1000 [] = [] ∧
    releaseMemory 90 50 1000 [10, 20] = [] ∧
    releaseMemory 60 50 1000 [7]
      = releaseChunks (min (ratToUint ((60 - 50) / 100 * 1000)) (chunkTotal [7])) [7] :=
  C10_release_clamped 80 50 1000 90 50 1000 [10, 20] (by decide)
    (by rw [show ((90 : ℚ) - 50) / 100 * ((1000 : ℕ) : ℚ) = ((400 : ℕ) : ℚ) by
          push_cast; norm_num,
        ratToUint_natCast]
        norm_num [chunkTotal])
    60 50 1000 [7] (by decide)

/-- C5 fails on the code: the legacy releaseMemory frees whole blocks —
`int(len * ratio)` of them but always at least one — not the claimed
fraction of held bytes.  A pool holding one 10-byte block with excess 3
points (at most 5, so the claim says 30% of held memory is freed) is
emptied entirely: 10 of 10 bytes are freed, not 3. -/
theorem C5_counterexample :
    legacyReleaseMemory 53 50 [10] = [] ∧
    chunkTotal [10] - chunkTotal (legacyReleaseMemory 53 50 [10]) = 10 ∧
    (10 : ℕ) ≠ 3 := by
  have hfrac : releaseFraction ((53 : ℚ) - 50) = 3 / 10 := by
    unfold releaseFraction
    rw [if_pos (by norm_num)]
  have hblocks : blocksToRelease 1 (3 / 10) = 1 :=
    blocksToRelease_one (by norm_num) (by norm_num)
  have hmain : legacyReleaseMemory 53 50 [10] = [] := by
    unfold legacyReleaseMemory
    rw [if_neg (by simp)]
    have hlen : ([10] : List ℕ).length = 1 := rfl
    rw [hlen, hfrac, hblocks]
    unfold dropLastN
    simp
  refine ⟨hmain, ?_, by norm_num⟩
  rw [hmain]
  rfl

/-- C5 amended: the legacy release policy selects a release fraction from
the excess — 30% for at most 5 points, 50% for at most 10, 70% otherwise,
monotonically non-decreasing in the excess — and applies it at whole-block
granularity, freeing int(blockCount * fraction) blocks but always at least
one, from the most recently allocated end, so a larger excess never leaves
more memory held; for n equal-sized blocks exactly
n - blocksToRelease n fraction blocks remain, and a one-block pool is
always emptied entirely whatever the excess. -/
theorem C5_amended_release_policy (e1 : ℚ) (h1 : e1 ≤ 5)
    (e2 : ℚ) (h2a : 5 < e2) (h2b : e2 ≤ 10)
    (e3 : ℚ) (h3 : 10 < e3)
    (e4 e5 : ℚ) (h45 : e4 ≤ e5)
    (curA tgtA : ℚ) (chA : List ℕ) (hne : chA ≠ [])
    (cur1 cur2 tgt2 : ℚ) (ch2 : List ℕ) (h12 : cur1 ≤ cur2)
    (n s : ℕ) (hn : n ≠ 0) (curB tgtB : ℚ)
    (curC tgtC : ℚ) (s2 : ℕ) :
    releaseFraction e1 = 3 / 10 ∧
    releaseFraction e2 = 5 / 10 ∧
    releaseFraction e3 = 7 / 10 ∧
    releaseFraction e4 ≤ releaseFraction e5 ∧
    legacyReleaseMemory curA tgtA chA
      = dropLastN (blocksToRelease chA.length (releaseFraction (curA - tgtA))) chA ∧
    chunkTotal (legacyReleaseMemory cur2 tgt2 ch2)
      ≤ chunkTotal (legacyReleaseMemory cur1 tgt2 ch2) ∧
    chunkTotal (legacyReleaseMemory curB tgtB (List.replicate n s))
      = (n - blocksToRelease n (releaseFraction (curB - tgtB))) * s ∧
    legacyReleaseMemory curC tgtC [s2] = [] := by
  refine ⟨?_, ?_, ?_, releaseFraction_mono h45, ?_, ?_, ?_, ?_⟩
  · unfold releaseFraction
    rw [if_pos h1]
  · unfold releaseFraction
    rw [if_neg (not_le.mpr h2a), if_pos h2b]
  · unfold releaseFraction
    rw [if_neg (not_le.mpr (by linarith)), if_neg (not_le.mpr h3)]
  · unfold legacyReleaseMemory
    rw [if_neg hne]
  · by_cases hch : ch2 = []
    · subst hch
      simp [legacyReleaseMemory]
    · unfold legacyReleaseMemory
      rw [if_neg hch, if_neg hch]
      unfold dropLastN chunkTotal
      apply sum_take_mono
      have hk : blocksToRelease ch2.length (releaseFraction (cur1 - tgt2))
          ≤ blocksToRelease ch2.length (releaseFraction (cur2 - tgt2)) :=
        blocksToRelease_mono ch2.length
          (releaseFraction_mono (by linarith))
      omega
  · have hrep : List.replicate n s ≠ [] := by
      simp [hn]
    unfold legacyReleaseMemory
    rw [if_neg hrep, List.length_replicate]
    unfold dropLastN chunkTotal
    rw [List.length_replicate, List.take_replicate, List.sum_replicate,
      Nat.min_eq_left (Nat.sub_le n _), smul_eq_mul]
  · have hb : blocksToRelease 1 (releaseFraction (curC - tgtC)) = 1 :=
      blocksToRelease_one (releaseFraction_bounds (curC - tgtC)).1
        (releaseFraction_bounds (curC - tgtC)).2
    unfold legacyReleaseMemory
    rw [if_neg (by simp)]
    have hlen : ([s2] : List ℕ).length = 1 := rfl
    rw [hlen, hb]
    unfold dropLastN
    simp

theorem C5_amended_release_policy_witness :
    releaseFraction 3 = 3 / 10 ∧
    releaseFraction 7 = 5 / 10 ∧
    releaseFraction 12 = 7 / 10 ∧
    releaseFraction 1 ≤ releaseFraction 2 ∧
    legacyReleaseMemory 60 50 [8]
      = dropLastN (blocksToRelease [8].length (releaseFraction (60 - 50))) [8] ∧
    chunkTotal (legacyReleaseMemory 62 50 [1, 2, 3])
      ≤ chunkTotal (legacyReleaseMemory 56 50 [1, 2, 3]) ∧
    chunkTotal (legacyReleaseMemory 62 50 (List.replicate 3 4))
      = (3 - blocksToRelease 3 (releaseFraction (62 - 50))) * 4 ∧
    legacyReleaseMemory 57 50 [9] = [] :=
  C5_amended_release_policy 3 (by norm_num) 7 (by norm_num) (by norm_num)
    12 (by norm_num) 1 2 (by norm_num) 60 50 [8] (by decide)
    56 62 50 [1, 2, 3] (by norm_num)
    3 4 (by norm_num) 62 50 57 50 9

/-- C2 fails on the code: the hysteresis band of the memory (and disk)
adjustment is one-sided.  With target 50 and the code's band of 5 points,
a current usage of 47 lies inside [target - band, target + band], where
the claim requires NoOp, yet adjustMemoryUsage grows (47 < 50), allocating
a 30-byte chunk on a 1000-byte total. -/
theorem C2_counterexample :
    ((50 : ℚ) - 5 ≤ 47 ∧ (47 : ℚ) ≤ 50 + 5) ∧
    decideMemory 47 50 1000 = Decision.grow 30 ∧
    Decision.grow 30 ≠ Decision.noop ∧
    adjustMemoryUsage 47 50 1000 [] = [30] ∧
    ([30] : List ℕ) ≠ [] := by
  have hq : ((50 : ℚ) - 47) / 100 * ((1000 : ℕ) : ℚ) = ((30 : ℕ) : ℚ) := by
    push_cast
    norm_num
  have hr : ratToUint (((50 : ℚ) - 47) / 100 * ((1000 : ℕ) : ℚ)) = 30 := by
    rw [hq, ratToUint_natCast]
  have h30 : allocChunkSizes 30 = [30] := by
    rw [allocChunkSizes_eq]
    norm_num [memChunkSize]
    rw [allocChunkSizes_eq]
    norm_num
  refine ⟨by constructor <;> norm_num, ?_, by simp, ?_, by simp⟩
  · unfold decideMemory
    rw [if_pos (by norm_num), hr]
  · unfold adjustMemoryUsage
    rw [if_pos (by norm_num), hr]
    unfold allocateMemory
    rw [h30]
    rfl

/-- C2 amended: the CPU adjustment has the claimed symmetric band of 5
points (grow below target - 5 with a worker count clamped into
[1, numCPU], shrink above target + 5, NoOp inside the band), but for
memory and disk the band is one-sided: the code grows whenever
current < target — with magnitude floor((target - current)/100 * capacity),
strictly positive whenever (target - current) * capacity ≥ 100 — shrinks
when current > target + 5, and NoOps exactly on [target, target + 5]. -/
theorem C2_amended_decisions
    (cmg tmg : ℚ) (totg : ℕ) (hg : cmg < tmg)
    (cmp tmp2 : ℚ) (totp : ℕ) (hp1 : (100 : ℚ) ≤ (tmp2 - cmp) * totp)
    (cmn tmn : ℚ) (totn : ℕ) (hn1 : tmn ≤ cmn) (hn2 : cmn ≤ tmn + 5)
    (cms tms : ℚ) (tots : ℕ) (hs : tms + 5 < cms)
    (ncpu : ℕ) (hcpu : 1 ≤ ncpu)
    (ccg tcg : ℚ) (hcg : ccg < tcg - 5)
    (ccn tcn : ℚ) (hcn1 : tcn - 5 ≤ ccn) (hcn2 : ccn ≤ tcn + 5)
    (ccs tcs : ℚ) (hcs : tcs + 5 < ccs) :
    decideMemory cmg tmg totg = Decision.grow (ratToUint ((tmg - cmg) / 100 * totg)) ∧
    decideDisk cmg tmg totg = Decision.grow (ratToUint ((tmg - cmg) / 100 * totg)) ∧
    0 < ratToUint ((tmp2 - cmp) / 100 * totp) ∧
    decideMemory cmn tmn totn = Decision.noop ∧
    decideDisk cmn tmn totn = Decision.noop ∧
    decideMemory cms tms tots = Decision.shrink ∧
    decideDisk cms tms tots = Decision.shrink ∧
    decideCPU ccg tcg ncpu = Decision.grow (numWorkersFor tcg ncpu) ∧
    (1 ≤ numWorkersFor tcg ncpu ∧ numWorkersFor tcg ncpu ≤ ncpu) ∧
    decideCPU ccn tcn ncpu = Decision.noop ∧
    decideCPU ccs tcs ncpu = Decision.shrink := by
  refine ⟨?_, ?_, ?_, ?_, ?_, ?_, ?_, ?_, numWorkersFor_bounds tcg ncpu hcpu, ?_, ?_⟩
  · unfold decideMemory
    rw [if_pos hg]
  · unfold decideDisk
    rw [if_pos hg]
  · apply ratToUint_pos
    rw [div_mul_eq_mul_div, le_div_iff₀ (by norm_num : (0 : ℚ) < 100)]
    linarith
  · unfold decideMemory
    rw [if_neg (not_lt.mpr hn1), if_neg (not_lt.mpr hn2)]
  · unfold decideDisk
    rw [if_neg (not_lt.mpr hn1), if_neg (not_lt.mpr hn2)]
  · unfold decideMemory
    rw [if_neg (not_lt.mpr (by linarith)), if_pos hs]
  · unfold decideDisk
    rw [if_neg (not_lt.mpr (by linarith)), if_pos hs]
  · unfold decideCPU
    rw [if_pos hcg]
  · unfold decideCPU
    rw [if_neg (not_lt.mpr hcn1), if_neg (not_lt.mpr hcn2)]
  · unfold decideCPU
    rw [if_neg (not_lt.mpr (by linarith)), if_pos hcs]

theorem C2_amended_decisions_witness :
    decideMemory 47 50 1000 = Decision.grow (ratToUint ((50 - 47) / 100 * 1000)) ∧
    decideDisk 47 50 1000 = Decision.grow (ratToUint ((50 - 47) / 100 * 1000)) ∧
    0 < ratToUint ((50 - 40) / 100 * 1000) ∧
    decideMemory 52 50 1000 = Decision.noop ∧
    decideDisk 52 50 1000 = Decision.noop ∧
    decideMemory 60 50 1000 = Decision.shrink ∧
    decideDisk 60 50 1000 = Decision.shrink ∧
    decideCPU 10 30 4 = Decision.grow (numWorkersFor 30 4) ∧
    (1 ≤ numWorkersFor 30 4 ∧ numWorkersFor 30 4 ≤ 4) ∧
    decideCPU 30 30 4 = Decision.noop ∧
    decideCPU 50 30 4 = Decision.shrink :=
  C2_amended_decisions 47 50 1000 (by norm_num)
    40 50 1000 (by push_cast; norm_num)
    52 50 1000 (by norm_num) (by norm_num)
    60 50 1000 (by norm_num)
    4 (by norm_num)
    10 30 (by norm_num)
    30 30 (by norm_num) (by norm_num)
    50 30 (by norm_num)

/-- C7 fails on the package code: within a tick, monitorAndAdjust invokes
the disk adjustment first but then the memory adjustment before the CPU
adjustment, so the invocation order is disk, memory, CPU — not the
claimed disk, CPU, memory. -/
theorem C7_counterexample :
    (monitorAndAdjust cfg0 4 false inp0 st0).2
      = [AdjustKind.disk, AdjustKind.mem, AdjustKind.cpu] ∧
    [AdjustKind.disk, AdjustKind.mem, AdjustKind.cpu]
      ≠ [AdjustKind.disk, AdjustKind.cpu, AdjustKind.mem] := by
  exact ⟨rfl, by simp⟩

/-- C7 amended: within every tick whose four sampling calls succeed, the
adjustments are invoked in the order disk first (fully applied before the
others are attempted), then memory, then CPU. -/
theorem C7_amended_order (cfg : ResourceConfig) (numCPU : ℕ) (st : EngineState)
    (inp : TickInput) (m : ℚ × ℕ) (c : ℚ) (d : ℚ × ℕ) (m2 : ℚ × ℕ)
    (h1 : inp.memSample = some m) (h2 : inp.cpuSample = some c)
    (h3 : inp.diskSample = some d) (h4 : inp.memResample = some m2) :
    (monitorAndAdjust cfg numCPU false inp st).2
      = [AdjustKind.disk, AdjustKind.mem, AdjustKind.cpu] := by
  obtain ⟨dp, dt⟩ := d
  obtain ⟨mp, mt⟩ := m2
  simp [monitorAndAdjust, h1, h2, h3, h4]

theorem C7_amended_order_witness :
    (monitorAndAdjust cfg0 4 false inp0 st0).2
      = [AdjustKind.disk, AdjustKind.mem, AdjustKind.cpu] :=
  C7_amended_order cfg0 4 st0 inp0 (52, 1000) 32 (42, 1000) (52, 1000)
    rfl rfl rfl rfl

end Occupy

